import Mathlib

/-!
Verification of the browserq job queue and worker loop.

The development shallowly embeds the two source modules:

* `browserq/database.py` — an SQLite-backed job store.  The database state
  is a `Store` (the `jobs` and `outputs` tables plus the autoincrement
  counters); each database function becomes a pure function on `Store`.
  Timestamps (`DATETIME('now')`) are passed in explicitly as `Nat` values.

* `browserq/worker.py` — the asynchronous worker loop.  Python exceptions
  are embedded as the inductive `PyExc`, with `isException` reflecting the
  Python class hierarchy (`asyncio.CancelledError` derives from
  `BaseException`, not `Exception`, since Python 3.8; `playwright` errors
  and `asyncio.TimeoutError` are ordinary `Exception`s).  One iteration of
  the `while not shutdown` loop becomes `workerStep`, driven by an
  `IterEvent` describing what the awaited execution does; the loop itself
  becomes `worker_loop`, which also counts calls to `get_next_job`.
-/

namespace Browserq

/-- Job status enum, mirroring `jobs.JobStatus`
(`PENDING`, `IN_PROGRESS`, `DONE`, `FAILED`). -/
inductive JobStatus where
  | pending
  | inProgress
  | done
  | failed
deriving DecidableEq, Repr

/-- A row of the `jobs` table (`database.DBJob`).  `input` is kept as the
opaque JSON text; `created_at` and `updated_at` are abstract timestamps. -/
structure DBJob where
  id : Nat
  name : String
  input : String
  status : JobStatus
  created_at : Nat
  updated_at : Option Nat
  worker : Option String
deriving DecidableEq, Repr

/-- A row of the `outputs` table (`database.DBOutput`).  The blob payload is
a byte list; `output` is nullable in the schema. -/
structure DBOutput where
  id : Nat
  job_id : Nat
  output : Option (List Nat)
deriving DecidableEq, Repr

/-- The database state: both tables and the `AUTOINCREMENT` counters. -/
structure Store where
  jobs : List DBJob
  outputs : List DBOutput
  nextJobId : Nat
  nextOutputId : Nat
deriving DecidableEq, Repr

/-- Model of `INSERT INTO jobs (name, input, status) VALUES (?, ?, ...)`,
status `pending`, with
`created_at` defaulting to the current time (`database.create_job`). -/
def create_job (s : Store) (name : String) (input_json : String) (now : Nat) :
    DBJob × Store :=
  let j : DBJob :=
    { id := s.nextJobId, name := name, input := input_json,
      status := .pending, created_at := now, updated_at := none,
      worker := none }
  (j, { s with jobs := s.jobs ++ [j], nextJobId := s.nextJobId + 1 })

/-- Point lookup `SELECT ... FROM jobs WHERE id = ?`
(`database.get_job_by_id`). -/
def get_job_by_id (s : Store) (id_ : Nat) : Option DBJob :=
  s.jobs.find? (fun j => j.id = id_)

/-- Point lookup `SELECT ... FROM outputs WHERE job_id = ?`
(`database.get_job_result_by_job_id`). -/
def get_job_result_by_job_id (s : Store) (job_id : Nat) : Option DBOutput :=
  s.outputs.find? (fun o => o.job_id = job_id)

/-- The row produced by `ORDER BY created_at ASC LIMIT 1`: a row with
minimal `created_at` (the leftmost one on ties; SQLite leaves tie order
unspecified, and any minimal row satisfies the properties proved below). -/
def minByCreatedAt : List DBJob → Option DBJob
  | [] => none
  | j :: rest =>
    match minByCreatedAt rest with
    | none => some j
    | some b => if j.created_at ≤ b.created_at then some j else some b

/-- The `SELECT` of `get_next_job`:
`WHERE status = 'pending' ORDER BY created_at ASC LIMIT 1`. -/
def selectOldestPending (jobs : List DBJob) : Option DBJob :=
  minByCreatedAt (jobs.filter (fun j => j.status = .pending))

/-- Embedding of `database.get_next_job`: inside a `BEGIN IMMEDIATE` transaction, select
the oldest pending job; on a miss roll back (no state change) and return
`none`; otherwise update that row to `in_progress` with `updated_at` and
`worker` set, commit, and return the fetched row with its `status` and
`worker` fields (only) updated in place. -/
def get_next_job (s : Store) (worker : String) (now : Nat) :
    Option DBJob × Store :=
  match selectOldestPending s.jobs with
  | none => (none, s)
  | some j =>
    let updated : DBJob :=
      { j with status := .inProgress, updated_at := some now,
               worker := some worker }
    (some { j with status := .inProgress, worker := some worker },
     { s with jobs := s.jobs.map (fun k => if k.id = j.id then updated else k) })

/-- Python truthiness of the `output` argument (`if output:`): `None` and
the empty byte string `b""` are falsy. -/
def outputTruthy : Option (List Nat) → Bool
  | none => false
  | some bs => !bs.isEmpty

/-- Embedding of `database.update_job_status`: set `status` and `updated_at` on the row
with the given id, then `INSERT INTO outputs` exactly when the `output`
argument is truthy.  The `status` parameter is typed
`Literal[DONE, FAILED]` in the source; theorems carry that as a
hypothesis. -/
def update_job_status (s : Store) (job_id : Nat) (status : JobStatus)
    (output : Option (List Nat)) (now : Nat) : Store :=
  let jobs1 := s.jobs.map (fun j =>
    if j.id = job_id then { j with status := status, updated_at := some now }
    else j)
  if outputTruthy output then
    { s with jobs := jobs1,
             outputs := s.outputs ++
               [{ id := s.nextOutputId, job_id := job_id, output := output }],
             nextOutputId := s.nextOutputId + 1 }
  else
    { s with jobs := jobs1 }

/-- Status of the job with a given id, if present. -/
def statusOf (s : Store) (id_ : Nat) : Option JobStatus :=
  (get_job_by_id s id_).map (fun j => j.status)

/-- The pending rows, in table order. -/
def pendingJobs (s : Store) : List DBJob :=
  s.jobs.filter (fun j => j.status = .pending)

/-- Well-formedness maintained by the schema: row ids are distinct
(`INTEGER PRIMARY KEY AUTOINCREMENT`) and below the autoincrement
counter. -/
def Store.Wf (s : Store) : Prop :=
  (s.jobs.map (fun j => j.id)).Nodup ∧ ∀ j ∈ s.jobs, j.id < s.nextJobId

instance (s : Store) : Decidable s.Wf := by
  unfold Store.Wf
  infer_instance

/-- Serialization of concurrent claim calls: `get_next_job` invoked once per element of a list of worker ids:
the serialization of concurrent `claim` calls.  The `BEGIN IMMEDIATE`
transaction in `get_next_job` takes SQLite's reserved write lock before the
`SELECT`, so concurrent claim transactions execute serially in some order;
the list gives that order. -/
def claimSeq : Store → List String → Nat → List (Option DBJob) × Store
  | s, [], _ => ([], s)
  | s, w :: rest, now =>
    match get_next_job s w now with
    | (r, s1) =>
      let t := claimSeq s1 rest now
      (r :: t.1, t.2)

/-- The jobs returned by up to `n` repeated `get_next_job` calls of a single
worker, stopping at the first miss. -/
def claimedJobs (w : String) (now : Nat) : Store → Nat → List DBJob
  | _, 0 => []
  | s, n + 1 =>
    match get_next_job s w now with
    | (none, _) => []
    | (some j, s1) => j :: claimedJobs w now s1 n

/-- The public store operations (`create_job` = enqueue, `get_next_job` =
claim, `update_job_status` = complete), as a single step type for reasoning
about operation sequences. -/
inductive StoreOp where
  | enqueue (name input_json : String) (now : Nat)
  | claim (w : String) (now : Nat)
  | complete (job_id : Nat) (st : JobStatus) (output : Option (List Nat)) (now : Nat)

/-- A `complete` call respects the `Literal[DONE, FAILED]` type of the
`status` parameter of `update_job_status`; the other operations carry no
constraint. -/
def StoreOp.valid : StoreOp → Prop
  | .complete _ st _ _ => st = .done ∨ st = .failed
  | _ => True

/-- The effect of one store operation on the database state. -/
def applyOp (s : Store) : StoreOp → Store
  | .enqueue n i t => (create_job s n i t).2
  | .claim w t => (get_next_job s w t).2
  | .complete id_ st out t => update_job_status s id_ st out t

/-- A sequence of store operations applied in order. -/
def applyOps (s : Store) : List StoreOp → Store
  | [] => s
  | op :: rest => applyOps (applyOp s op) rest

/-- Python exceptions relevant to `worker.py`, by class.  In Python 3.8+,
`asyncio.CancelledError` derives directly from `BaseException`, not
`Exception`; `asyncio.TimeoutError` and `playwright.async_api.Error` are
ordinary `Exception` subclasses, and `otherError` stands for any other
`Exception` (e.g. `KeyError`, `TypeError`). -/
inductive PyExc where
  | cancelledError
  | timeoutError
  | playwrightError
  | otherError
deriving DecidableEq, Repr

/-- Whether the exception is caught by `except Exception`. -/
def PyExc.isException : PyExc → Bool
  | .cancelledError => false
  | _ => true

/-- What `await task` does after `task.cancel()`: the task may handle the
cancellation and finish (so the await returns its result), or the await
re-raises an exception out of the task — `CancelledError` in the default
case where the task lets the cancellation propagate. -/
inductive CleanupOutcome where
  | finishes
  | raises (e : PyExc)
deriving DecidableEq, Repr

/-- The state of `current_job_task` when `_cancel_task` runs. -/
inductive TaskState where
  | noTask
  | taskDone
  | running (cleanup : CleanupOutcome)
deriving DecidableEq, Repr

/-- Result of `worker._cancel_task`: whether the task was cancelled and
awaited, and which exception (if any) escapes the helper. -/
structure CancelResult where
  awaited : Bool
  raised : Option PyExc
deriving DecidableEq, Repr

/-- Embedding of `worker._cancel_task`: if the task exists and is not done, cancel it and
await it; an exception from that await is logged and suppressed when it is
caught by `except Exception`, and escapes the helper otherwise. -/
def _cancel_task : TaskState → CancelResult
  | .noTask => { awaited := false, raised := none }
  | .taskDone => { awaited := false, raised := none }
  | .running .finishes => { awaited := true, raised := none }
  | .running (.raises e) =>
    { awaited := true, raised := if e.isException then none else some e }

/-- The default of the `timeout` parameter of `worker._shutdown_browser`
(`timeout: float = 5.0`). -/
def shutdownTimeoutDefault : Nat := 5

/-- Embedding of `worker._shutdown_browser`:
`asyncio.wait_for(browser.close(), timeout)`
guarded by `except (asyncio.TimeoutError, playwright.async_api.Error)`.
`closeRaises` is the exception `browser.close()` terminates with (if any)
and `closeDuration` the time it takes; when the close outlasts the timeout,
`wait_for` raises `asyncio.TimeoutError`.  The returned value is the
exception escaping the helper, if any. -/
def _shutdown_browser (closeRaises : Option PyExc)
    (closeDuration timeout : Nat) : Option PyExc :=
  if timeout < closeDuration then
    none
  else
    match closeRaises with
    | none => none
    | some .timeoutError => none
    | some .playwrightError => none
    | some e => some e

/-- Outcome of the execution phase of one claimed job: the job body (the
`jobs_defs[job.name](**job.input)` construction or the awaited `execute`
task) returns an output, raises an ordinary `Exception`, raises a
`playwright` error, or the worker task is cancelled mid-execution — in the
last case the in-flight job task is still running and `_cancel_task` awaits
it with the given cleanup behaviour. -/
inductive ExecOutcome where
  | ok (output : Option (List Nat))
  | raisesError
  | envFault
  | interrupted (cleanup : CleanupOutcome)
deriving DecidableEq, Repr

/-- What happens during one iteration of the `while not shutdown` loop:
a `playwright` error while opening the sub-context or page, a claimed job
reaching the execution phase with the given outcome, or a `CancelledError`
delivered while the worker is idle (polling or sleeping). -/
inductive IterEvent where
  | ctxFault
  | run (o : ExecOutcome)
  | idleCancel
deriving DecidableEq, Repr

/-- One iteration of `worker.worker_loop` (the body of
`while not shutdown`), given the event for this iteration.  Returns the new
store, the `shutdown` flag, and the id of the job claimed this iteration,
if any.

The exception routing mirrors the source: `CancelledError` and
`playwright` errors hit the first inner handler, which runs `_cancel_task`
and, when that helper itself raises `CancelledError` (not caught by its
`except Exception`), the exception escapes the inner handler before
`update_job_status` runs and is caught by the outer
`except asyncio.CancelledError`, leaving the job untouched; any other
exception (including the `KeyError` of a failed `jobs_defs[job.name]`
lookup) hits `except Exception` and the job is marked failed with no
output, without shutting down. -/
def workerStep (s : Store) (regs : List String) (w : String) (e : IterEvent)
    (now : Nat) : Store × Bool × Option Nat :=
  match e with
  | .idleCancel => (s, true, none)
  | .ctxFault =>
    match get_next_job s w now with
    | (none, s1) => (s1, false, none)
    | (some j, s1) =>
      (update_job_status s1 j.id .failed none now, true, some j.id)
  | .run o =>
    match get_next_job s w now with
    | (none, s1) => (s1, false, none)
    | (some j, s1) =>
      if j.name ∈ regs then
        match o with
        | .ok out => (update_job_status s1 j.id .done out now, false, some j.id)
        | .raisesError =>
          (update_job_status s1 j.id .failed none now, false, some j.id)
        | .envFault =>
          (update_job_status s1 j.id .failed none now, true, some j.id)
        | .interrupted c =>
          match (_cancel_task (.running c)).raised with
          | none => (update_job_status s1 j.id .failed none now, true, some j.id)
          | some _ => (s1, true, some j.id)
      else
        (update_job_status s1 j.id .failed none now, false, some j.id)

/-- Embedding of `worker.worker_loop`, iterated over a list of timestamped events until
the event list is exhausted or `shutdown` is set.  Returns the final store
and the number of `get_next_job` calls issued. -/
def worker_loop (regs : List String) (w : String) :
    Store → List (IterEvent × Nat) → Store × Nat
  | s, [] => (s, 0)
  | s, (e, now) :: rest =>
    match workerStep s regs w e now with
    | (s1, sh, _) =>
      let claims : Nat := match e with | .idleCancel => 0 | _ => 1
      if sh then (s1, claims)
      else
        let t := worker_loop regs w s1 rest
        (t.1, claims + t.2)

/-- The empty database, as produced by `init_db`: both tables empty, both
`AUTOINCREMENT` counters at 1 (SQLite row ids start at 1). -/
def emptyStore : Store :=
  { jobs := [], outputs := [], nextJobId := 1, nextOutputId := 1 }

/-- A store holding one pending job (id 1, name `noop`), enqueued at time
10 through `create_job`. -/
def onePendingStore : Store :=
  (create_job emptyStore "noop" "\x7b\x7d" 10).2

/-- The store after worker `w1` claims the single pending job of
`onePendingStore` at time 20: job 1 is `in_progress`. -/
def oneInProgressStore : Store :=
  (get_next_job onePendingStore "w1" 20).2

/-- A store with two pending jobs, enqueued at times 10 and 11. -/
def twoPendingStore : Store :=
  (create_job onePendingStore "second" "\x7b\x7d" 11).2

/-- The status-transition DAG asserted by the specification:
`Pending → InProgress → {Done, Failed}`, with staying put allowed. -/
def dagStep : JobStatus → JobStatus → Bool
  | .pending, .inProgress => true
  | .inProgress, .done => true
  | .inProgress, .failed => true
  | a, b => a = b

/-- An operation sequence permitted by the store API: enqueue a job, claim
it, complete it as done, then complete it again as failed.  Each `complete`
status respects the `Literal[DONE, FAILED]` parameter type. -/
def doubleCompleteOps : List StoreOp :=
  [.enqueue "noop" "\x7b\x7d" 10, .claim "w1" 20,
   .complete 1 .done none 30, .complete 1 .failed none 40]

namespace Facts

theorem minByCreatedAt_eq_none {l : List DBJob} :
    minByCreatedAt l = none ↔ l = [] := by
  cases l with
  | nil => simp [minByCreatedAt]
  | cons a rest =>
    simp only [minByCreatedAt]
    constructor
    · intro h
      cases hrec : minByCreatedAt rest <;> rw [hrec] at h
      · simp at h
      · rename_i b
        by_cases hle : a.created_at ≤ b.created_at <;> simp [hle] at h
    · intro h; simp at h

theorem minByCreatedAt_mem {l : List DBJob} {j : DBJob}
    (h : minByCreatedAt l = some j) : j ∈ l := by
  induction l with
  | nil => simp [minByCreatedAt] at h
  | cons a rest ih =>
    simp only [minByCreatedAt] at h
    cases hrec : minByCreatedAt rest with
    | none => rw [hrec] at h; simp at h; simp [h]
    | some b =>
      rw [hrec] at h
      by_cases hle : a.created_at ≤ b.created_at
      · simp [hle] at h; simp [h]
      · simp [hle] at h
        subst h
        exact List.mem_cons_of_mem _ (ih hrec)

theorem minByCreatedAt_min {l : List DBJob} {j : DBJob}
    (h : minByCreatedAt l = some j) :
    ∀ k ∈ l, j.created_at ≤ k.created_at := by
  induction l generalizing j with
  | nil => simp [minByCreatedAt] at h
  | cons a rest ih =>
    simp only [minByCreatedAt] at h
    intro k hk
    cases hrec : minByCreatedAt rest with
    | none =>
      rw [hrec] at h
      simp at h
      subst h
      have hrest : rest = [] := minByCreatedAt_eq_none.mp hrec
      subst hrest
      simp at hk
      simp [hk]
    | some b =>
      rw [hrec] at h
      by_cases hle : a.created_at ≤ b.created_at
      · simp [hle] at h
        subst h
        rcases List.mem_cons.mp hk with hk | hk
        · simp [hk]
        · exact le_trans hle (ih hrec k hk)
      · simp [hle] at h
        subst h
        rcases List.mem_cons.mp hk with hk | hk
        · subst hk; omega
        · exact ih hrec k hk

theorem minByCreatedAt_isSome {l : List DBJob} (h : l ≠ []) :
    (minByCreatedAt l).isSome := by
  cases hm : minByCreatedAt l with
  | none => exact absurd (minByCreatedAt_eq_none.mp hm) h
  | some j => rfl

theorem selectOldestPending_mem {jobs : List DBJob} {j : DBJob}
    (h : selectOldestPending jobs = some j) :
    j ∈ jobs ∧ j.status = .pending := by
  have hmem := minByCreatedAt_mem h
  simp only [List.mem_filter, decide_eq_true_eq] at hmem
  exact hmem

theorem selectOldestPending_min {jobs : List DBJob} {j : DBJob}
    (h : selectOldestPending jobs = some j) :
    ∀ k ∈ jobs, k.status = .pending → j.created_at ≤ k.created_at := by
  intro k hk hkp
  exact minByCreatedAt_min h k (List.mem_filter.mpr ⟨hk, by simp [hkp]⟩)

theorem selectOldestPending_eq_none {jobs : List DBJob} :
    selectOldestPending jobs = none ↔
      ∀ k ∈ jobs, k.status ≠ .pending := by
  unfold selectOldestPending
  rw [minByCreatedAt_eq_none, List.filter_eq_nil_iff]
  simp

theorem get_next_job_of_select_none {s : Store} {w : String} {now : Nat}
    (hs : selectOldestPending s.jobs = none) :
    get_next_job s w now = (none, s) := by
  simp [get_next_job, hs]

theorem get_next_job_of_select_some {s : Store} {w : String} {now : Nat}
    {j0 : DBJob} (hs : selectOldestPending s.jobs = some j0) :
    get_next_job s w now =
      (some { j0 with status := .inProgress, worker := some w },
       { s with jobs := s.jobs.map (fun k =>
           if k.id = j0.id then
             { j0 with status := .inProgress, updated_at := some now,
                       worker := some w }
           else k) }) := by
  simp [get_next_job, hs]

theorem get_next_job_isSome_of_pending {s : Store} {w : String} {now : Nat}
    (hp : pendingJobs s ≠ []) :
    (get_next_job s w now).1.isSome := by
  cases hs : selectOldestPending s.jobs with
  | none =>
    exact absurd (minByCreatedAt_eq_none.mp hs) hp
  | some j0 =>
    rw [get_next_job_of_select_some hs]
    rfl

theorem claim_outputs_unchanged (s : Store) (w : String) (now : Nat) :
    (get_next_job s w now).2.outputs = s.outputs := by
  cases hs : selectOldestPending s.jobs with
  | none => rw [get_next_job_of_select_none hs]
  | some j0 => rw [get_next_job_of_select_some hs]

theorem claim_pending_lower_bound {s : Store} {w : String} {now : Nat}
    {j0 : DBJob} (hs : selectOldestPending s.jobs = some j0) :
    ∀ k ∈ (get_next_job s w now).2.jobs, k.status = .pending →
      j0.created_at ≤ k.created_at := by
  rw [get_next_job_of_select_some hs]
  intro k hk hkp
  simp only [List.mem_map] at hk
  obtain ⟨k0, hk0, hfk⟩ := hk
  by_cases hid : k0.id = j0.id
  · rw [if_pos hid] at hfk
    rw [← hfk] at hkp
    simp at hkp
  · rw [if_neg hid] at hfk
    subst hfk
    exact selectOldestPending_min hs k0 hk0 hkp

theorem claim_single_pending {s : Store} {w : String} {now : Nat}
    {j0 : DBJob} (hp : pendingJobs s = [j0]) :
    pendingJobs (get_next_job s w now).2 = [] := by
  have hs : selectOldestPending s.jobs = some j0 := by
    unfold selectOldestPending
    rw [show s.jobs.filter (fun j => j.status = .pending) = [j0] from hp]
    rfl
  rw [get_next_job_of_select_some hs]
  unfold pendingJobs
  rw [List.filter_eq_nil_iff]
  intro k hk
  simp only [List.mem_map] at hk
  obtain ⟨k0, hk0, hfk⟩ := hk
  by_cases hid : k0.id = j0.id
  · rw [if_pos hid] at hfk
    rw [← hfk]
    simp
  · rw [if_neg hid] at hfk
    subst hfk
    intro hkp
    have : k0 ∈ pendingJobs s := by
      unfold pendingJobs
      exact List.mem_filter.mpr ⟨hk0, hkp⟩
    rw [hp] at this
    simp at this
    exact hid (by rw [this])

theorem get_next_job_miss_of_no_pending {s : Store} {w : String} {now : Nat}
    (hp : pendingJobs s = []) :
    get_next_job s w now = (none, s) := by
  apply get_next_job_of_select_none
  exact minByCreatedAt_eq_none.mpr hp

theorem get_next_job_some_inv {s : Store} {w : String} {now : Nat}
    {j : DBJob} {s1 : Store} (h : get_next_job s w now = (some j, s1)) :
    ∃ j0, selectOldestPending s.jobs = some j0 ∧
      j = { j0 with status := .inProgress, worker := some w } ∧
      s1 = { s with jobs := s.jobs.map (fun k =>
        if k.id = j0.id then
          { j0 with status := .inProgress, updated_at := some now,
                    worker := some w }
        else k) } := by
  cases hs : selectOldestPending s.jobs with
  | none =>
    rw [get_next_job_of_select_none hs] at h
    simp at h
  | some j0 =>
    rw [get_next_job_of_select_some hs] at h
    refine ⟨j0, rfl, ?_, ?_⟩
    · have h1 := congrArg Prod.fst h
      simp only [Option.some.injEq] at h1
      exact h1.symm
    · exact (congrArg Prod.snd h).symm

theorem find_id_map (f : DBJob → DBJob) (hf : ∀ k, (f k).id = k.id)
    (l : List DBJob) (i : Nat) :
    (l.map f).find? (fun k => k.id = i) =
      (l.find? (fun k => k.id = i)).map f := by
  rw [List.find?_map]
  have hp : ((fun k : DBJob => decide (k.id = i)) ∘ f) =
      (fun k : DBJob => decide (k.id = i)) := by
    funext k
    simp [Function.comp, hf]
  rw [hp]

theorem claim_update_preserves_id {j0 : DBJob} {w : String} {now : Nat} :
    ∀ k : DBJob,
      ((fun k => if k.id = j0.id then
          { j0 with status := JobStatus.inProgress, updated_at := some now,
                    worker := some w }
        else k) k).id = k.id := by
  intro k
  by_cases h : k.id = j0.id <;> simp [h]

theorem get_job_by_id_claim {s : Store} {w : String} {now : Nat}
    {j0 : DBJob} (hs : selectOldestPending s.jobs = some j0) (i : Nat) :
    get_job_by_id (get_next_job s w now).2 i =
      (get_job_by_id s i).map (fun k =>
        if k.id = j0.id then
          { j0 with status := JobStatus.inProgress, updated_at := some now,
                    worker := some w }
        else k) := by
  rw [get_next_job_of_select_some hs]
  exact find_id_map _ claim_update_preserves_id s.jobs i

theorem status_update_preserves_id {job_id : Nat} {st : JobStatus} {now : Nat} :
    ∀ k : DBJob,
      ((fun k => if k.id = job_id then
          { k with status := st, updated_at := some now }
        else k) k).id = k.id := by
  intro k
  by_cases h : k.id = job_id <;> simp [h]

theorem get_job_by_id_update (s : Store) (job_id : Nat) (st : JobStatus)
    (out : Option (List Nat)) (now : Nat) (i : Nat) :
    get_job_by_id (update_job_status s job_id st out now) i =
      (get_job_by_id s i).map (fun k =>
        if k.id = job_id then { k with status := st, updated_at := some now }
        else k) := by
  unfold update_job_status
  split
  · exact find_id_map _ status_update_preserves_id s.jobs i
  · exact find_id_map _ status_update_preserves_id s.jobs i

theorem update_outputs (s : Store) (job_id : Nat) (st : JobStatus)
    (out : Option (List Nat)) (now : Nat) :
    (update_job_status s job_id st out now).outputs =
      if outputTruthy out then
        s.outputs ++ [{ id := s.nextOutputId, job_id := job_id, output := out }]
      else s.outputs := by
  unfold update_job_status
  split <;> simp_all

theorem get_job_by_id_enqueue {s : Store} {n ij : String} {now : Nat}
    {i : Nat} {r : DBJob} (h : get_job_by_id s i = some r) :
    get_job_by_id (create_job s n ij now).2 i = some r := by
  unfold create_job get_job_by_id
  rw [List.find?_append]
  unfold get_job_by_id at h
  rw [h]
  rfl

theorem update_outputs_not_truthy {s : Store} {job_id : Nat} {st : JobStatus}
    {now : Nat} (out : Option (List Nat)) (h : outputTruthy out = false) :
    (update_job_status s job_id st out now).outputs = s.outputs := by
  rw [update_outputs, h]
  simp

theorem get_output_update {s : Store} {job_id : Nat} {st : JobStatus}
    {out : Option (List Nat)} {now : Nat}
    (hout : get_job_result_by_job_id s job_id = none) :
    get_job_result_by_job_id (update_job_status s job_id st out now) job_id =
      if outputTruthy out then
        some { id := s.nextOutputId, job_id := job_id, output := out }
      else none := by
  unfold get_job_result_by_job_id
  rw [update_outputs]
  unfold get_job_result_by_job_id at hout
  split
  · rw [List.find?_append, hout]
    simp [List.find?]
  · exact hout

theorem statusOf_update_self {s : Store} {job_id : Nat} {st : JobStatus}
    {out : Option (List Nat)} {now : Nat}
    (hj : (get_job_by_id s job_id).isSome) :
    statusOf (update_job_status s job_id st out now) job_id = some st := by
  cases hr : get_job_by_id s job_id with
  | none => rw [hr] at hj; simp at hj
  | some r =>
    have hid : r.id = job_id := by
      have := List.find?_some hr
      simpa using this
    unfold statusOf
    rw [get_job_by_id_update, hr]
    simp [hid]

theorem claimSeq_no_pending (ws : List String) {s : Store} (now : Nat)
    (hp : pendingJobs s = []) :
    claimSeq s ws now = (List.replicate ws.length none, s) := by
  induction ws with
  | nil => rfl
  | cons w rest ih =>
    show (match get_next_job s w now with
      | (r, s1) =>
        let t := claimSeq s1 rest now
        (r :: t.1, t.2)) = _
    rw [get_next_job_miss_of_no_pending hp]
    simp only []
    rw [ih]
    rfl

theorem claimedJobs_chain (w : String) (now : Nat) :
    ∀ n s, List.Chain' (fun a b : DBJob => a.created_at ≤ b.created_at)
      (claimedJobs w now s n) := by
  intro n
  induction n with
  | zero => intro s; simp [claimedJobs]
  | succ m ih =>
    intro s
    cases h : get_next_job s w now with
    | mk r s1 =>
      cases r with
      | none => simp [claimedJobs, h]
      | some j =>
        have hcons : claimedJobs w now s (m + 1) =
            j :: claimedJobs w now s1 m := by
          simp [claimedJobs, h]
        rw [hcons, List.chain'_cons']
        refine ⟨?_, ih s1⟩
        intro y hy
        cases m with
        | zero => simp [claimedJobs] at hy
        | succ m2 =>
          cases h2 : get_next_job s1 w now with
          | mk r2 s2 =>
            cases r2 with
            | none => simp [claimedJobs, h2] at hy
            | some j2 =>
              have hcons2 : claimedJobs w now s1 (m2 + 1) =
                  j2 :: claimedJobs w now s2 m2 := by
                simp [claimedJobs, h2]
              rw [hcons2] at hy
              simp at hy
              subst hy
              obtain ⟨j0, hs0, hj0, _⟩ := get_next_job_some_inv h
              obtain ⟨j20, hs20, hj20, _⟩ := get_next_job_some_inv h2
              obtain ⟨hm2, hp2⟩ := selectOldestPending_mem hs20
              have hs1eq : s1 = (get_next_job s w now).2 := by rw [h]
              have hb := @claim_pending_lower_bound s w now j0 hs0
                j20 (by rw [← hs1eq]; exact hm2) hp2
              rw [hj0, hj20]
              simpa using hb

theorem statusOf_applyOp_step {s : Store} {op : StoreOp} {i : Nat}
    {st : JobStatus} (hv : op.valid) (hst : statusOf s i = some st) :
    ∃ st2, statusOf (applyOp s op) i = some st2 ∧
      (st2 = .pending → st = .pending) := by
  obtain ⟨r, hr, hrst⟩ : ∃ r, get_job_by_id s i = some r ∧ r.status = st := by
    unfold statusOf at hst
    cases hrr : get_job_by_id s i with
    | none => rw [hrr] at hst; simp at hst
    | some r =>
      rw [hrr] at hst
      exact ⟨r, rfl, by simpa using hst⟩
  cases op with
  | enqueue n ij t =>
    refine ⟨st, ?_, fun h => h⟩
    simp only [applyOp, statusOf]
    rw [get_job_by_id_enqueue hr]
    simp [hrst]
  | claim w t =>
    cases hs : selectOldestPending s.jobs with
    | none =>
      refine ⟨st, ?_, fun h => h⟩
      simp only [applyOp]
      rw [get_next_job_of_select_none hs]
      exact hst
    | some j0 =>
      by_cases hid : r.id = j0.id
      · refine ⟨.inProgress, ?_, by intro h; cases h⟩
        simp only [applyOp, statusOf]
        rw [get_job_by_id_claim hs, hr]
        simp [hid]
      · refine ⟨st, ?_, fun h => h⟩
        simp only [applyOp, statusOf]
        rw [get_job_by_id_claim hs, hr]
        simp [hid, hrst]
  | complete jid starg out t =>
    by_cases hid : r.id = jid
    · refine ⟨starg, ?_, ?_⟩
      · simp only [applyOp, statusOf]
        rw [get_job_by_id_update, hr]
        simp [hid]
      · intro h
        rcases hv with hv | hv <;> rw [hv] at h <;> cases h
    · refine ⟨st, ?_, fun h => h⟩
      simp only [applyOp, statusOf]
      rw [get_job_by_id_update, hr]
      simp [hid, hrst]

theorem statusOf_applyOps_not_pending {ops : List StoreOp} :
    ∀ {s : Store} {st : JobStatus} {i : Nat}, (∀ op ∈ ops, op.valid) →
      statusOf s i = some st → st ≠ .pending →
      statusOf (applyOps s ops) i ≠ some .pending := by
  induction ops with
  | nil =>
    intro s st i _ hst hnp
    show statusOf s i ≠ some .pending
    rw [hst]
    intro hcon
    exact hnp (by simpa using hcon)
  | cons op rest ih =>
    intro s st i hv hst hnp
    obtain ⟨st2, hafter, himp⟩ :=
      statusOf_applyOp_step (hv op (by simp)) hst
    have hst2 : st2 ≠ .pending := fun h => hnp (himp h)
    exact ih (fun o ho => hv o (by simp [ho])) hafter hst2

theorem claim_transition {s : Store} (hwf : s.Wf) {i : Nat} {st : JobStatus}
    (hst : statusOf s i = some st) (w : String) (now : Nat) :
    ∀ st2, statusOf (get_next_job s w now).2 i = some st2 →
      st2 = st ∨ (st = .pending ∧ st2 = .inProgress) := by
  obtain ⟨r, hr, hrst⟩ : ∃ r, get_job_by_id s i = some r ∧ r.status = st := by
    unfold statusOf at hst
    cases hrr : get_job_by_id s i with
    | none => rw [hrr] at hst; simp at hst
    | some r =>
      rw [hrr] at hst
      exact ⟨r, rfl, by simpa using hst⟩
  intro st2 hst2
  cases hs : selectOldestPending s.jobs with
  | none =>
    rw [get_next_job_of_select_none hs] at hst2
    rw [hst] at hst2
    left
    simpa using hst2.symm
  | some j0 =>
    unfold statusOf at hst2
    rw [get_job_by_id_claim hs, hr] at hst2
    by_cases hid : r.id = j0.id
    · right
      simp [hid] at hst2
      obtain ⟨hmem0, hpend0⟩ := selectOldestPending_mem hs
      have hrmem : r ∈ s.jobs := List.mem_of_find?_eq_some hr
      have hreq : r = j0 :=
        List.inj_on_of_nodup_map hwf.1 hrmem hmem0 hid
      exact ⟨by rw [← hrst, hreq]; exact hpend0, hst2.symm⟩
    · left
      simp [hid] at hst2
      rw [← hrst]
      exact hst2.symm

end Facts

open Facts

/-- C8 counterexample: when the cancelled task lets the cancellation
propagate — the default behaviour of a cancelled asyncio task — the
`await task` inside `_cancel_task` raises `CancelledError`, which
`except Exception` does not catch, so the helper propagates it to its
caller, contradicting "never propagated". -/
theorem cancel_task_propagates_counterexample :
    (_cancel_task (.running (.raises .cancelledError))).raised =
      some PyExc.cancelledError := rfl

/-- C8 (amended): `_cancel_task` cancels and awaits a still-running task,
and any ordinary error (`Exception`) raised during that cleanup await is
logged and not propagated; only a `CancelledError` raised by the awaited
task escapes the helper. -/
theorem cancel_task_amended (t : TaskState) :
    (∀ c, t = .running c → (_cancel_task t).awaited = true) ∧
    (∀ e, (_cancel_task t).raised = some e → e = .cancelledError) ∧
    (∀ e, e.isException = true → (_cancel_task t).raised ≠ some e) := by
  rcases t with _ | _ | c
  · refine ⟨by simp, by simp [_cancel_task], by simp [_cancel_task]⟩
  · refine ⟨by simp, by simp [_cancel_task], by simp [_cancel_task]⟩
  · rcases c with _ | e
    · refine ⟨by simp [_cancel_task], by simp [_cancel_task],
        by simp [_cancel_task]⟩
    · rcases e <;> refine ⟨by simp [_cancel_task], ?_, ?_⟩ <;>
        · intro e1 he1
          rcases e1 <;> simp_all [_cancel_task, PyExc.isException]

/-- Witness for C8's amended theorem: an ordinary error raised during the
cleanup await of a running task is swallowed. -/
theorem cancel_task_amended_witness :
    PyExc.otherError.isException = true ∧
    (_cancel_task (.running (.raises .otherError))).raised ≠
      some PyExc.otherError :=
  ⟨rfl, (cancel_task_amended (.running (.raises .otherError))).2.2
    PyExc.otherError rfl⟩

/-- C9 counterexample: `_shutdown_browser` only catches
`asyncio.TimeoutError` and `playwright.async_api.Error`; if
`browser.close()` raises any other exception within the timeout, the
exception escapes the shutdown helper, contradicting "teardown never
raises out of the shutdown path". -/
theorem shutdown_browser_propagates_counterexample :
    _shutdown_browser (some .otherError) 1 shutdownTimeoutDefault =
      some PyExc.otherError := rfl

/-- C9 (amended): final browser teardown is bounded by `asyncio.wait_for`
with a timeout defaulting to 5; a teardown that exceeds the timeout or
raises `asyncio.TimeoutError` or a `playwright` error is logged and
swallowed, so those failures never escape the shutdown path — but an
exception of any other kind raised by `browser.close()` within the
timeout does propagate. -/
theorem shutdown_browser_amended (closeRaises : Option PyExc) (d t : Nat) :
    (t < d → _shutdown_browser closeRaises d t = none) ∧
    _shutdown_browser none d t = none ∧
    _shutdown_browser (some .timeoutError) d t = none ∧
    _shutdown_browser (some .playwrightError) d t = none ∧
    (∀ e, _shutdown_browser closeRaises d t = some e →
      (e = .cancelledError ∨ e = .otherError) ∧ d ≤ t ∧
        closeRaises = some e) ∧
    shutdownTimeoutDefault = 5 := by
  by_cases h : t < d
  · refine ⟨fun _ => by simp [_shutdown_browser, h],
      by simp [_shutdown_browser, h], by simp [_shutdown_browser, h],
      by simp [_shutdown_browser, h], ?_, rfl⟩
    intro e he
    rw [show _shutdown_browser closeRaises d t = none from by
      simp [_shutdown_browser, h]] at he
    exact absurd he (by simp)
  · refine ⟨fun hc => absurd hc h, by simp [_shutdown_browser, h],
      by simp [_shutdown_browser, h], by simp [_shutdown_browser, h],
      ?_, rfl⟩
    intro e he
    unfold _shutdown_browser at he
    rw [if_neg h] at he
    rcases closeRaises with _ | e0
    · simp at he
    · rcases e0 <;> simp_all

/-- Witness for C9's amended theorem: a teardown that outlasts the default
timeout is swallowed (the `asyncio.TimeoutError` raised by `wait_for` is
caught and logged). -/
theorem shutdown_browser_amended_witness :
    shutdownTimeoutDefault < 7 ∧
    _shutdown_browser (some .playwrightError) 7 shutdownTimeoutDefault =
      none :=
  ⟨by decide,
   (shutdown_browser_amended (some .playwrightError) 7
     shutdownTimeoutDefault).1 (by decide)⟩

/-- C6 counterexample: `update_job_status` inserts an Output row whenever
the `output` argument is truthy, without checking the status argument; a
`complete(jobId, Failed, b"k")` call therefore leaves the job `failed`
while an Output record for it exists, contradicting "a Failed job never
carries an Output record". -/
theorem complete_failed_with_output_counterexample :
    statusOf (update_job_status oneInProgressStore 1 .failed (some [107]) 30)
        1 = some .failed ∧
    get_job_result_by_job_id
        (update_job_status oneInProgressStore 1 .failed (some [107]) 30) 1 =
      some { id := 1, job_id := 1, output := some [107] } := by
  constructor <;> rfl

/-- C6 (amended): after `complete(jobId, status, output)` on a job with no
prior Output record, the job's status equals the given status, which the
`Literal[DONE, FAILED]` parameter type confines to Done or Failed, and an
Output record for the job exists iff the supplied output was non-empty —
regardless of the status argument; the insert is not conditioned on the
status being Done. -/
theorem complete_spec_amended (s : Store) (job_id : Nat) (st : JobStatus)
    (out : Option (List Nat)) (now : Nat)
    (hst : st = .done ∨ st = .failed)
    (hj : (get_job_by_id s job_id).isSome)
    (hout : get_job_result_by_job_id s job_id = none) :
    statusOf (update_job_status s job_id st out now) job_id = some st ∧
    (st = .done ∨ st = .failed) ∧
    ((get_job_result_by_job_id (update_job_status s job_id st out now)
        job_id).isSome = outputTruthy out) := by
  refine ⟨statusOf_update_self hj, hst, ?_⟩
  rw [get_output_update hout]
  by_cases ht : outputTruthy out = true <;> simp [ht]

/-- Witness for C6's amended theorem: completing job 1 of
`oneInProgressStore` as done with output `b"ok"` marks it done and
records the output. -/
theorem complete_spec_amended_witness :
    statusOf (update_job_status oneInProgressStore 1 .done (some [111, 107])
        30) 1 = some .done ∧
    (get_job_result_by_job_id (update_job_status oneInProgressStore 1 .done
        (some [111, 107]) 30) 1).isSome =
      outputTruthy (some [111, 107]) := by
  have h := complete_spec_amended oneInProgressStore 1 .done (some [111, 107])
    30 (Or.inl rfl) (by rfl) (by rfl)
  exact ⟨h.1, h.2.2⟩

/-- C1: for a store containing exactly one pending job and any number of
claim calls — serialized in an arbitrary order by the `BEGIN IMMEDIATE`
write lock — the first serialized call returns that job (claimed for its
caller) and every other call returns none, so exactly one caller obtains
the job and no job is claimed by two callers. -/
theorem claim_mutual_exclusion (s : Store) (j : DBJob) (w : String)
    (ws : List String) (now : Nat) (hp : pendingJobs s = [j]) :
    (claimSeq s (w :: ws) now).1 =
      some { j with status := .inProgress, worker := some w } ::
        List.replicate ws.length none ∧
    (claimSeq s (w :: ws) now).1.countP (fun r => r.isSome) = 1 := by
  have hs : selectOldestPending s.jobs = some j := by
    unfold selectOldestPending
    unfold pendingJobs at hp
    rw [hp]
    rfl
  have hrest : pendingJobs (get_next_job s w now).2 = [] :=
    claim_single_pending hp
  have hg := @get_next_job_of_select_some s w now j hs
  have hS2 : (get_next_job s w now).2 = { s with jobs := s.jobs.map (fun k =>
      if k.id = j.id then
        { j with status := JobStatus.inProgress, updated_at := some now,
                 worker := some w }
      else k) } := by rw [hg]
  have hrest2 := hS2 ▸ hrest
  have hseq : claimSeq s (w :: ws) now =
      (some { j with status := .inProgress, worker := some w } ::
        List.replicate ws.length none, (get_next_job s w now).2) := by
    show (match get_next_job s w now with
      | (r, s1) =>
        let t := claimSeq s1 ws now
        (r :: t.1, t.2)) = _
    rw [hg]
    simp only []
    rw [claimSeq_no_pending ws now hrest2]
  refine ⟨by rw [hseq], ?_⟩
  rw [hseq]
  simp only [List.countP_cons]
  have hz : (List.replicate ws.length (none : Option DBJob)).countP
      (fun r => r.isSome) = 0 := by
    rw [List.countP_eq_zero]
    intro a ha
    rw [List.eq_of_mem_replicate ha]
    simp
  simp [hz]

/-- Witness for C1: three concurrent claim calls against a store with one
pending job; exactly one call returns a job. -/
theorem claim_mutual_exclusion_witness :
    pendingJobs onePendingStore =
      [{ id := 1, name := "noop", input := "\x7b\x7d", status := .pending,
         created_at := 10, updated_at := none, worker := none }] ∧
    (claimSeq onePendingStore ["w1", "w2", "w3"] 20).1.countP
      (fun r => r.isSome) = 1 :=
  ⟨rfl, (claim_mutual_exclusion onePendingStore _ "w1" ["w2", "w3"] 20
    rfl).2⟩

/-- C2: `get_next_job` returns none and leaves the store unchanged when no
pending job exists; otherwise it selects a pending job whose `created_at`
is minimal among pending jobs, transitions exactly that row to
`in_progress` recording the worker id and `updated_at`, leaves every other
row and the outputs table untouched, and returns the selected job. -/
theorem claim_oldest_pending_spec (s : Store) (w : String) (now : Nat) :
    (pendingJobs s = [] → get_next_job s w now = (none, s)) ∧
    (∀ j s1, get_next_job s w now = (some j, s1) →
      ∃ j0, j0 ∈ s.jobs ∧ j0.status = .pending ∧
        (∀ k ∈ s.jobs, k.status = .pending →
          j0.created_at ≤ k.created_at) ∧
        j = { j0 with status := .inProgress, worker := some w } ∧
        get_job_by_id s1 j0.id =
          some { j0 with status := .inProgress, updated_at := some now,
                         worker := some w } ∧
        (∀ i, i ≠ j0.id → get_job_by_id s1 i = get_job_by_id s i) ∧
        s1.outputs = s.outputs ∧ s1.nextJobId = s.nextJobId ∧
        s1.nextOutputId = s.nextOutputId) := by
  constructor
  · exact fun hp => get_next_job_miss_of_no_pending hp
  · intro j s1 h
    obtain ⟨j0, hs, hj, hs1⟩ := get_next_job_some_inv h
    obtain ⟨hmem, hpend⟩ := selectOldestPending_mem hs
    subst hs1
    refine ⟨j0, hmem, hpend, selectOldestPending_min hs, hj, ?_, ?_, rfl,
      rfl, rfl⟩
    · show (s.jobs.map _).find? _ = _
      rw [find_id_map _ claim_update_preserves_id]
      have hex : (s.jobs.find? (fun k => k.id = j0.id)).isSome := by
        rw [List.find?_isSome]
        exact ⟨j0, hmem, by simp⟩
      cases hrr : s.jobs.find? (fun k => k.id = j0.id) with
      | none => rw [hrr] at hex; simp at hex
      | some r =>
        have hid : r.id = j0.id := by
          have := List.find?_some hrr
          simpa using this
        simp [hid]
    · intro i hi
      show (s.jobs.map _).find? _ = _
      rw [find_id_map _ claim_update_preserves_id]
      cases hrr : s.jobs.find? (fun k => k.id = i) with
      | none => simp [get_job_by_id, hrr]
      | some r =>
        have hid : r.id = i := by
          have := List.find?_some hrr
          simpa using this
        have : ¬(r.id = j0.id) := by rw [hid]; exact hi
        simp [get_job_by_id, hrr, this]

/-- Witness for C2: the miss branch on the empty store, and the hit branch
claiming the single pending job of `onePendingStore`. -/
theorem claim_oldest_pending_spec_witness :
    get_next_job emptyStore "w1" 5 = (none, emptyStore) ∧
    statusOf oneInProgressStore 1 = some .inProgress := by
  constructor
  · exact (claim_oldest_pending_spec emptyStore "w1" 5).1 rfl
  · obtain ⟨j0, _, _, _, hj, hlook, _⟩ :=
      (claim_oldest_pending_spec onePendingStore "w1" 20).2
        { id := 1, name := "noop", input := "\x7b\x7d",
          status := .inProgress, created_at := 10, updated_at := none,
          worker := some "w1" }
        oneInProgressStore rfl
    have hid : j0.id = 1 := by
      have := congrArg DBJob.id hj
      simpa using this.symm
    unfold statusOf
    rw [← hid, hlook]
    rfl

/-- C5: repeated single-worker claims return jobs in non-decreasing
`created_at` order, and any claimed job has minimal `created_at` among the
jobs that were pending at the time of the claim. -/
theorem claim_order_fifo (s : Store) (w : String) (now : Nat) (n : Nat) :
    List.Chain' (fun a b : DBJob => a.created_at ≤ b.created_at)
      (claimedJobs w now s n) ∧
    (∀ j s1, get_next_job s w now = (some j, s1) →
      ∀ k ∈ s.jobs, k.status = .pending → j.created_at ≤ k.created_at) := by
  refine ⟨claimedJobs_chain w now n s, ?_⟩
  intro j s1 h k hk hkp
  obtain ⟨j0, hs, hj, _⟩ := get_next_job_some_inv h
  rw [hj]
  simpa using selectOldestPending_min hs k hk hkp

/-- Witness for C5: three claims against the two-job store come out in
creation order, and the first claimed job's `created_at` is a lower bound
for the pending job enqueued later. -/
theorem claim_order_fifo_witness :
    List.Chain' (fun a b : DBJob => a.created_at ≤ b.created_at)
      (claimedJobs "w1" 20 twoPendingStore 3) ∧
    (10 : Nat) ≤ 11 := by
  have h := claim_order_fifo twoPendingStore "w1" 20 3
  refine ⟨h.1, ?_⟩
  have hb := h.2
    { id := 1, name := "noop", input := "\x7b\x7d", status := .inProgress,
      created_at := 10, updated_at := none, worker := some "w1" }
    (get_next_job twoPendingStore "w1" 20).2 rfl
    { id := 2, name := "second", input := "\x7b\x7d", status := .pending,
      created_at := 11, updated_at := none, worker := none }
    (by decide) rfl
  exact hb

/-- C7 counterexample: the transition DAG `Pending → InProgress →
{Done, Failed}` is not enforced by the store operations: after enqueue,
claim and `complete(1, Done)`, a second `complete(1, Failed)` — each status
argument within the `Literal[DONE, FAILED]` type — moves job 1 from `done`
to `failed`, which is not an edge of the DAG. -/
theorem status_dag_counterexample :
    statusOf (applyOps emptyStore (doubleCompleteOps.take 3)) 1 =
      some .done ∧
    statusOf (applyOps emptyStore doubleCompleteOps) 1 = some .failed ∧
    dagStep .done .failed = false := by
  refine ⟨rfl, rfl, rfl⟩

/-- C7 (amended): no operation sequence ever moves a job that has left
`pending` back to `pending` — enqueue only creates fresh rows, claim only
writes `in_progress`, complete only writes the given Done/Failed status —
and a claim moves a job's status only from `pending` to `in_progress`
(otherwise it leaves it unchanged); but `complete` overwrites the target
job's status with the given terminal status regardless of its current
status, so out-of-discipline complete calls can move a job along non-DAG
edges such as `done → failed`. -/
theorem status_transitions_amended (s : Store) (i : Nat) (st : JobStatus)
    (hwf : s.Wf) (hst : statusOf s i = some st) :
    (∀ ops : List StoreOp, (∀ op ∈ ops, op.valid) → st ≠ .pending →
      statusOf (applyOps s ops) i ≠ some .pending) ∧
    (∀ w now st2, statusOf (get_next_job s w now).2 i = some st2 →
      st2 = st ∨ (st = .pending ∧ st2 = .inProgress)) ∧
    (∀ jid starg out now, (starg = .done ∨ starg = .failed) →
      ∀ st2, statusOf (update_job_status s jid starg out now) i = some st2 →
        st2 = st ∨ st2 = starg) := by
  refine ⟨?_, ?_, ?_⟩
  · intro ops hv hnp
    exact statusOf_applyOps_not_pending hv hst hnp
  · intro w now st2 h2
    exact claim_transition hwf hst w now st2 h2
  · intro jid starg out now hv st2 h2
    obtain ⟨r, hr, hrst⟩ : ∃ r, get_job_by_id s i = some r ∧
        r.status = st := by
      unfold statusOf at hst
      cases hrr : get_job_by_id s i with
      | none => rw [hrr] at hst; simp at hst
      | some r =>
        rw [hrr] at hst
        exact ⟨r, rfl, by simpa using hst⟩
    unfold statusOf at h2
    rw [get_job_by_id_update, hr] at h2
    by_cases hid : r.id = jid
    · right
      simp [hid] at h2
      exact h2.symm
    · left
      simp [hid] at h2
      rw [← hrst]
      exact h2.symm

/-- Witness for C7's amended theorem: starting from the claimed job of
`oneInProgressStore`, a valid operation sequence (a further enqueue and a
complete) never takes job 1 back to `pending`. -/
theorem status_transitions_amended_witness :
    statusOf (applyOps oneInProgressStore
      [.enqueue "second" "\x7b\x7d" 25, .complete 1 .done none 30]) 1 ≠
      some .pending := by
  refine (status_transitions_amended oneInProgressStore 1 .inProgress
    (by decide) rfl).1
    [.enqueue "second" "\x7b\x7d" 25, .complete 1 .done none 30]
    ?_ (by decide)
  intro op hop
  simp only [List.mem_cons, List.not_mem_nil, or_false] at hop
  rcases hop with h | h
  · rw [h]; trivial
  · rw [h]; exact Or.inl rfl

/-- C3: evaluation of the worker loop at the failing input.  With one
pending job, a cancellation arriving mid-execution whose cancelled task
lets the `CancelledError` propagate from the cleanup await (the default
behaviour of a cancelled asyncio task) makes `_cancel_task` re-raise out
of the inner handler before `update_job_status` runs; the outer
`except asyncio.CancelledError` then breaks the loop.  The worker does
shut down and issues no further claim calls (the claim counter stays at
1 despite a second queued event), but job 1 is left `in_progress` with no
output — not `failed` as the claim states. -/
theorem cancellation_leaves_job_in_progress :
    (worker_loop ["noop"] "w1" onePendingStore
      [(.run (.interrupted (.raises .cancelledError)), 20),
       (.run (.ok (some [111, 107])), 30)]).2 = 1 ∧
    statusOf (worker_loop ["noop"] "w1" onePendingStore
      [(.run (.interrupted (.raises .cancelledError)), 20),
       (.run (.ok (some [111, 107])), 30)]).1 1 = some .inProgress ∧
    get_job_result_by_job_id (worker_loop ["noop"] "w1" onePendingStore
      [(.run (.interrupted (.raises .cancelledError)), 20),
       (.run (.ok (some [111, 107])), 30)]).1 1 = none := by
  refine ⟨rfl, rfl, rfl⟩

/-- C4: a claimed job whose execution raises an error that is neither an
environment-level fault nor a cancellation is marked failed with no
Output record by the `except Exception` handler, the loop does not shut
down, and a subsequent claim by the same worker succeeds whenever a
pending job remains. -/
theorem job_fault_is_recoverable (s : Store) (regs : List String)
    (w : String) (j0 : DBJob) (now later : Nat)
    (hs : selectOldestPending s.jobs = some j0)
    (hreg : j0.name ∈ regs)
    (hout : get_job_result_by_job_id s j0.id = none) :
    (workerStep s regs w (.run .raisesError) now).2 = (false, some j0.id) ∧
    statusOf (workerStep s regs w (.run .raisesError) now).1 j0.id =
      some .failed ∧
    get_job_result_by_job_id
      (workerStep s regs w (.run .raisesError) now).1 j0.id = none ∧
    (pendingJobs (workerStep s regs w (.run .raisesError) now).1 ≠ [] →
      (get_next_job (workerStep s regs w (.run .raisesError) now).1 w
        later).1.isSome) := by
  have hg := @get_next_job_of_select_some s w now j0 hs
  have hstep : workerStep s regs w (.run .raisesError) now =
      (update_job_status (get_next_job s w now).2 j0.id .failed none now,
       false, some j0.id) := by
    simp only [workerStep]
    rw [hg]
    simp only []
    rw [if_pos hreg]
  have hsrc : (get_job_by_id s j0.id).isSome := by
    unfold get_job_by_id
    rw [List.find?_isSome]
    exact ⟨j0, (selectOldestPending_mem hs).1, by simp⟩
  have hsome : (get_job_by_id (get_next_job s w now).2 j0.id).isSome := by
    rw [get_job_by_id_claim hs]
    cases hx : get_job_by_id s j0.id with
    | none => rw [hx] at hsrc; simp at hsrc
    | some r => simp
  have houts : get_job_result_by_job_id
      (update_job_status (get_next_job s w now).2 j0.id .failed none now)
      j0.id = none := by
    unfold get_job_result_by_job_id
    rw [update_outputs_not_truthy none rfl, claim_outputs_unchanged]
    exact hout
  rw [hstep]
  exact ⟨rfl, statusOf_update_self hsome, houts,
    fun hp => get_next_job_isSome_of_pending hp⟩

/-- Witness for C4: with two pending jobs and both names registered, a
job-level fault on job 1 marks it failed and the next claim still finds
job 2. -/
theorem job_fault_is_recoverable_witness :
    statusOf (workerStep twoPendingStore ["noop", "second"] "w1"
      (.run .raisesError) 20).1 1 = some .failed ∧
    (get_next_job (workerStep twoPendingStore ["noop", "second"] "w1"
      (.run .raisesError) 20).1 "w1" 25).1.isSome := by
  have h := job_fault_is_recoverable twoPendingStore ["noop", "second"]
    "w1" { id := 1, name := "noop", input := "\x7b\x7d", status := .pending,
           created_at := 10, updated_at := none, worker := none }
    20 25 rfl (by decide) rfl
  exact ⟨h.2.1, h.2.2.2 (by decide)⟩

/-- C10: a claimed job whose name has no entry in the `jobs_defs` mapping
hits a `KeyError` at `jobs_defs[job.name]`, an ordinary `Exception`: the
job is marked failed with no Output record and the loop keeps polling
(no shutdown), whatever the execution outcome would have been.  An
input-keys mismatch in the constructor call raises `TypeError` and takes
the identical `except Exception` path. -/
theorem unknown_job_name_recoverable (s : Store) (regs : List String)
    (w : String) (j0 : DBJob) (o : ExecOutcome) (now later : Nat)
    (hs : selectOldestPending s.jobs = some j0)
    (hreg : j0.name ∉ regs)
    (hout : get_job_result_by_job_id s j0.id = none) :
    (workerStep s regs w (.run o) now).2 = (false, some j0.id) ∧
    statusOf (workerStep s regs w (.run o) now).1 j0.id = some .failed ∧
    get_job_result_by_job_id (workerStep s regs w (.run o) now).1 j0.id =
      none ∧
    (pendingJobs (workerStep s regs w (.run o) now).1 ≠ [] →
      (get_next_job (workerStep s regs w (.run o) now).1 w
        later).1.isSome) := by
  have hg := @get_next_job_of_select_some s w now j0 hs
  have hstep : workerStep s regs w (.run o) now =
      (update_job_status (get_next_job s w now).2 j0.id .failed none now,
       false, some j0.id) := by
    simp only [workerStep]
    rw [hg]
    simp only []
    rw [if_neg hreg]
  have hsrc : (get_job_by_id s j0.id).isSome := by
    unfold get_job_by_id
    rw [List.find?_isSome]
    exact ⟨j0, (selectOldestPending_mem hs).1, by simp⟩
  have hsome : (get_job_by_id (get_next_job s w now).2 j0.id).isSome := by
    rw [get_job_by_id_claim hs]
    cases hx : get_job_by_id s j0.id with
    | none => rw [hx] at hsrc; simp at hsrc
    | some r => simp
  have houts : get_job_result_by_job_id
      (update_job_status (get_next_job s w now).2 j0.id .failed none now)
      j0.id = none := by
    unfold get_job_result_by_job_id
    rw [update_outputs_not_truthy none rfl, claim_outputs_unchanged]
    exact hout
  rw [hstep]
  exact ⟨rfl, statusOf_update_self hsome, houts,
    fun hp => get_next_job_isSome_of_pending hp⟩

/-- Witness for C10: job 1's name `noop` absent from a registry containing
only `second`; job 1 is failed and the loop does not shut down. -/
theorem unknown_job_name_recoverable_witness :
    statusOf (workerStep twoPendingStore ["second"] "w1"
      (.run (.ok (some [1]))) 20).1 1 = some .failed ∧
    (workerStep twoPendingStore ["second"] "w1"
      (.run (.ok (some [1]))) 20).2 = (false, some 1) := by
  have h := unknown_job_name_recoverable twoPendingStore ["second"] "w1"
    { id := 1, name := "noop", input := "\x7b\x7d", status := .pending,
      created_at := 10, updated_at := none, worker := none }
    (.ok (some [1])) 20 25 rfl (by decide) rfl
  exact ⟨h.2.1, h.1⟩

end Browserq
